import Mathlib

/-!
Verification of the outbound long-message splitting and delivery logic of
the extract-text-gemini-bot repository (function `sendSplitMessage` in
`src/server.js`, together with its helpers `sendWhatsAppMessage` and
`delay`).

Shallow embedding conventions:
* JavaScript strings are `List Char`.
* The external single-send primitive `sendWhatsAppMessage` either resolves
  or rejects; it is modelled by an oracle `o : Nat → Bool` giving the
  outcome of the j-th physical send issued by one `sendSplitMessage` call
  (`true` = resolved, `false` = rejected).
* One call of `sendSplitMessage` is represented by the ordered trace of
  the physical sends it issues and the pacing waits it awaits, plus its
  final outcome: `.normal` when the returned promise resolves, `.thrown`
  when a rejection propagates out of the function.
* The `longText` argument may be any JavaScript value; the model type
  `JSValue` covers strings and the non-string values the input guard
  tests for (null, undefined, numbers, booleans, objects).
-/

namespace GeminiBot

/-- WhatsApp character limit for a single message (`MAX_LENGTH` in the source). -/
abbrev MAX_LENGTH : Nat := 4096

/-- Space reserved for the part label, `PREFIX_RESERVATION` in the source. -/
abbrev PREFIX_RESERVATION : Nat := 20

/-- The body budget `CHUNK_SIZE = MAX_LENGTH - PREFIX_RESERVATION` from the source. -/
abbrev CHUNK_SIZE : Nat := MAX_LENGTH - PREFIX_RESERVATION

/-- Default value of the `delayBetweenMessages` parameter in the source. -/
abbrev defaultDelay : Nat := 1500

/-- Code points treated as whitespace by JavaScript's `String.prototype.trim`. -/
def jsWhitespaceCodes : List Nat :=
  [9, 10, 11, 12, 13, 32, 160, 5760, 8192, 8193, 8194, 8195, 8196, 8197,
   8198, 8199, 8200, 8201, 8202, 8232, 8233, 8239, 8287, 12288, 65279]

/-- Whether a character is JavaScript whitespace. -/
def isJsWhitespace (ch : Char) : Bool :=
  jsWhitespaceCodes.contains ch.toNat

/-- JavaScript `String.prototype.trim`: remove leading and trailing whitespace. -/
def jsTrim (l : List Char) : List Char :=
  ((l.dropWhile isJsWhitespace).reverse.dropWhile isJsWhitespace).reverse

/-- The JavaScript values relevant to the `longText` argument of
`sendSplitMessage`: a string, or one of the non-string shapes the input
guard distinguishes. -/
inductive JSValue where
  | jsString (s : List Char)
  | jsNull
  | jsUndefined
  | jsNumber (n : Int)
  | jsBool (b : Bool)
  | jsObject
deriving DecidableEq

/-- JavaScript truthiness of a `JSValue` (`!longText` is its negation). -/
def truthy : JSValue → Bool
  | .jsString s => !s.isEmpty
  | .jsNull => false
  | .jsUndefined => false
  | .jsNumber n => n != 0
  | .jsBool b => b
  | .jsObject => true

/-- The test `typeof longText === 'string'` from the input guard. -/
def isStringType : JSValue → Bool
  | .jsString _ => true
  | _ => false

/-- The third guard disjunct `longText.trim() === ""`; by short-circuiting it
is only ever evaluated on strings, so the non-string value is irrelevant. -/
def trimmedEmpty : JSValue → Bool
  | .jsString s => (jsTrim s).isEmpty
  | _ => false

/-- The input guard of `sendSplitMessage`:
`!longText || typeof longText !== 'string' || longText.trim() === ""`. -/
def guardBlocks (v : JSValue) : Bool :=
  !truthy v || !isStringType v || trimmedEmpty v

/-- The splitting loop of `sendSplitMessage`:
`for (let i = 0; i < longText.length; i += CHUNK_SIZE) chunks.push(longText.substring(i, i + CHUNK_SIZE))`. -/
def chunksOf (l : List Char) : List (List Char) :=
  if h : l = [] then []
  else l.take CHUNK_SIZE :: chunksOf (l.drop CHUNK_SIZE)
termination_by l.length
decreasing_by
  have hp : 0 < l.length := List.length_pos.mpr h
  have hc : CHUNK_SIZE = 4076 := rfl
  simp only [List.length_drop]
  omega

/-- The rendered part label, open paren, decimal `i`, slash, decimal `n`,
close paren, space (1-based index `i`, total `n`). -/
def partLabel (i n : Nat) : List Char :=
  '(' :: (Nat.toDigits 10 i ++ '/' :: (Nat.toDigits 10 n ++ [')', ' ']))

/-- The rendered payload for the chunk at 0-based position `i` of an `n`-chunk
plan: the part label for index `i + 1` of `n` followed by the chunk body. -/
def messagePart (i n : Nat) (chunk : List Char) : List Char :=
  partLabel (i + 1) n ++ chunk

/-- The three-dot marker appended after truncation in the defensive branch. -/
def ellipsisChars : List Char := ['.', '.', '.']

/-- The truncation `messagePart.substring(0, MAX_LENGTH - 3) + "..."` from the defensive branch. -/
def truncPayload (msg : List Char) : List Char :=
  msg.take (MAX_LENGTH - 3) ++ ellipsisChars

/-- ASCII apostrophe, used inside the notification text. -/
def apostrophe : Char := Char.ofNat 39

/-- The best-effort notification text sent when the first chunk fails,
reading: Sorry, I encountered an issue while sending your multi-part
message and couldn(apostrophe)t send all of it. -/
def notifText : List Char :=
  ("Sorry, I encountered an issue while sending your multi-part message and couldn".data)
    ++ apostrophe :: ("t send all of it.".data)

/-- Classification of a physical send issued by `sendSplitMessage`:
the short-path verbatim send, a prefixed chunk send (1-based index, total),
a truncated anomaly send from the defensive branch, or the best-effort
failure notification. -/
inductive SendKind where
  | short
  | chunk (i n : Nat)
  | truncated (i n : Nat)
  | notification
deriving DecidableEq

/-- One physical send: its kind, the payload handed to
`sendWhatsAppMessage`, and whether that send resolved (`true`) or rejected
(`false`). -/
structure SendEvent where
  kind : SendKind
  payload : List Char
  ok : Bool
deriving DecidableEq

/-- One observable step of a `sendSplitMessage` call: a physical send or an
awaited `delay(ms)`. -/
inductive TraceItem where
  | send (e : SendEvent)
  | wait (ms : Nat)
deriving DecidableEq

/-- How the `sendSplitMessage` promise finishes: resolved (`normal`) or
rejected with a propagated exception (`thrown`). -/
inductive Outcome where
  | normal
  | thrown
deriving DecidableEq

/-- The observable behaviour of one `sendSplitMessage` call. -/
structure DeliverResult where
  trace : List TraceItem
  outcome : Outcome
deriving DecidableEq

/-- The 1-based chunk index carried by a send kind (prefixed or truncated
chunk sends), if any. -/
def kindIdx : SendKind → Option Nat
  | .chunk j _ => some j
  | .truncated j _ => some j
  | _ => none

/-- The 1-based chunk index carried by a trace item, if any. -/
def chunkIdx : TraceItem → Option Nat
  | .send e => kindIdx e.kind
  | .wait _ => none

/-- The sending loop of `sendSplitMessage` (`for (let i = 0; ...)` over the
chunk list), started at 0-based position `i` with `c` physical sends already
issued; `n` is the total chunk count, `d` the inter-chunk delay. -/
def sendLoop (o : Nat → Bool) (d n : Nat) : Nat → Nat → List (List Char) → DeliverResult
  | _, _, [] => ⟨[], .normal⟩
  | i, c, body :: rest =>
    if MAX_LENGTH < (messagePart i n body).length then
      if o c then
        ⟨.send ⟨.truncated (i + 1) n, truncPayload (messagePart i n body), true⟩ ::
            (sendLoop o d n (i + 1) (c + 1) rest).trace,
          (sendLoop o d n (i + 1) (c + 1) rest).outcome⟩
      else
        ⟨[.send ⟨.truncated (i + 1) n, truncPayload (messagePart i n body), false⟩], .thrown⟩
    else
      if o c then
        if i < n - 1 then
          ⟨.send ⟨.chunk (i + 1) n, messagePart i n body, true⟩ :: .wait d ::
              (sendLoop o d n (i + 1) (c + 1) rest).trace,
            (sendLoop o d n (i + 1) (c + 1) rest).outcome⟩
        else
          ⟨.send ⟨.chunk (i + 1) n, messagePart i n body, true⟩ ::
              (sendLoop o d n (i + 1) (c + 1) rest).trace,
            (sendLoop o d n (i + 1) (c + 1) rest).outcome⟩
      else
        if i = 0 then
          ⟨[.send ⟨.chunk (i + 1) n, messagePart i n body, false⟩,
            .send ⟨.notification, notifText, o (c + 1)⟩], .normal⟩
        else
          ⟨[.send ⟨.chunk (i + 1) n, messagePart i n body, false⟩], .normal⟩

/-- The whole `sendSplitMessage(to, longText, d)` call: input guard, short
path for `longText.length <= MAX_LENGTH`, otherwise split and run the
sending loop.  The recipient plays no role in the observable behaviour and
is omitted; `o` is the send-outcome oracle. -/
def sendSplitMessage (o : Nat → Bool) (v : JSValue) (d : Nat) : DeliverResult :=
  if guardBlocks v then ⟨[], .normal⟩
  else
    match v with
    | .jsString longText =>
      if longText.length ≤ MAX_LENGTH then
        ⟨[.send ⟨.short, longText, o 0⟩], if o 0 then .normal else .thrown⟩
      else
        sendLoop o d (chunksOf longText).length 0 0 (chunksOf longText)
    | _ => ⟨[], .normal⟩

/-! ### Basic facts about the splitting loop `chunksOf` -/

theorem chunksOf_nil : chunksOf [] = [] := by
  rw [chunksOf]
  simp

theorem chunksOf_cons_form (l : List Char) (h : l ≠ []) :
    chunksOf l = l.take CHUNK_SIZE :: chunksOf (l.drop CHUNK_SIZE) := by
  rw [chunksOf]
  simp [h]

/-- Round trip: concatenating the chunk bodies reconstructs the input. -/
theorem flatten_chunksOf (l : List Char) : (chunksOf l).flatten = l := by
  induction l using chunksOf.induct with
  | case1 => simp [chunksOf_nil]
  | case2 l h ih =>
    rw [chunksOf_cons_form l h]
    simp [List.flatten, ih]

/-- The chunk count is `ceil(length / CHUNK_SIZE)`. -/
theorem length_chunksOf (l : List Char) :
    (chunksOf l).length = (l.length + (CHUNK_SIZE - 1)) / CHUNK_SIZE := by
  induction l using chunksOf.induct with
  | case1 =>
    simp only [chunksOf_nil, List.length_nil]
    decide
  | case2 l h ih =>
    rw [chunksOf_cons_form l h]
    have hp : 0 < l.length := List.length_pos.mpr h
    have hc : CHUNK_SIZE = 4076 := rfl
    simp only [List.length_cons, ih, List.length_drop]
    rw [hc]
    omega

/-- Every chunk body has at most `CHUNK_SIZE` characters. -/
theorem length_le_of_mem_chunksOf (l p : List Char) (hp : p ∈ chunksOf l) :
    p.length ≤ CHUNK_SIZE := by
  induction l using chunksOf.induct with
  | case1 => simp [chunksOf_nil] at hp
  | case2 l h ih =>
    rw [chunksOf_cons_form l h] at hp
    rcases List.mem_cons.mp hp with h1 | h2
    · subst h1
      simp
    · exact ih h2

/-- Minimality: no decomposition into pieces of at most `CHUNK_SIZE`
characters each uses fewer pieces than `chunksOf`. -/
theorem chunksOf_minimal (l : List Char) (parts : List (List Char))
    (hjoin : parts.flatten = l) (hsz : ∀ p ∈ parts, p.length ≤ CHUNK_SIZE) :
    (chunksOf l).length ≤ parts.length := by
  have hlen : l.length ≤ CHUNK_SIZE * parts.length := by
    calc l.length = (parts.map List.length).sum := by
          rw [← hjoin, List.length_flatten]
      _ ≤ CHUNK_SIZE * parts.length := by
          have := List.sum_le_card_nsmul (parts.map List.length) CHUNK_SIZE
            (by
              intro x hx
              rcases List.mem_map.mp hx with ⟨p, hp, rfl⟩
              exact hsz p hp)
          simpa [smul_eq_mul, Nat.mul_comm] using this
  rw [length_chunksOf]
  have hc : CHUNK_SIZE = 4076 := rfl
  rw [hc] at hlen ⊢
  omega

/-- The first chunk is the first `CHUNK_SIZE` characters of the input. -/
theorem head_chunksOf (l : List Char) (h : l ≠ []) :
    (chunksOf l).head? = some (l.take CHUNK_SIZE) := by
  rw [chunksOf_cons_form l h]
  rfl

/-! ### Payload sizes -/

theorem notifText_length : notifText.length = 96 := by
  rfl

theorem length_messagePart (i n : Nat) (chunk : List Char) :
    (messagePart i n chunk).length = (partLabel (i + 1) n).length + chunk.length := by
  simp [messagePart]

theorem length_truncPayload (msg : List Char) :
    (truncPayload msg).length = min (MAX_LENGTH - 3) msg.length + 3 := by
  simp [truncPayload, ellipsisChars, List.length_take]

theorem length_truncPayload_le (msg : List Char) :
    (truncPayload msg).length ≤ MAX_LENGTH := by
  rw [length_truncPayload]
  have h : MAX_LENGTH = 4096 := rfl
  omega

theorem length_truncPayload_of_oversized (msg : List Char)
    (h : MAX_LENGTH < msg.length) : (truncPayload msg).length = MAX_LENGTH := by
  rw [length_truncPayload]
  have h4 : MAX_LENGTH = 4096 := rfl
  omega

/-! ### Case analysis of one iteration of the sending loop -/

/-- The six possible behaviours of one iteration of the sending loop,
matching the branch structure of the source: oversized payload with the
truncated send resolving or rejecting; in-budget payload with the send
resolving (with or without a pacing delay); in-budget payload with the
send rejecting on the first chunk (notification attempted) or on a later
chunk. -/
theorem sendLoop_cons_cases (o : Nat → Bool) (d n i c : Nat) (body : List Char)
    (rest : List (List Char)) :
    (MAX_LENGTH < (messagePart i n body).length ∧ o c = true ∧
      sendLoop o d n i c (body :: rest) =
        ⟨.send ⟨.truncated (i + 1) n, truncPayload (messagePart i n body), true⟩ ::
            (sendLoop o d n (i + 1) (c + 1) rest).trace,
          (sendLoop o d n (i + 1) (c + 1) rest).outcome⟩) ∨
    (MAX_LENGTH < (messagePart i n body).length ∧ o c = false ∧
      sendLoop o d n i c (body :: rest) =
        ⟨[.send ⟨.truncated (i + 1) n, truncPayload (messagePart i n body), false⟩],
          .thrown⟩) ∨
    ((messagePart i n body).length ≤ MAX_LENGTH ∧ o c = true ∧ i < n - 1 ∧
      sendLoop o d n i c (body :: rest) =
        ⟨.send ⟨.chunk (i + 1) n, messagePart i n body, true⟩ :: .wait d ::
            (sendLoop o d n (i + 1) (c + 1) rest).trace,
          (sendLoop o d n (i + 1) (c + 1) rest).outcome⟩) ∨
    ((messagePart i n body).length ≤ MAX_LENGTH ∧ o c = true ∧ ¬ i < n - 1 ∧
      sendLoop o d n i c (body :: rest) =
        ⟨.send ⟨.chunk (i + 1) n, messagePart i n body, true⟩ ::
            (sendLoop o d n (i + 1) (c + 1) rest).trace,
          (sendLoop o d n (i + 1) (c + 1) rest).outcome⟩) ∨
    ((messagePart i n body).length ≤ MAX_LENGTH ∧ o c = false ∧ i = 0 ∧
      sendLoop o d n i c (body :: rest) =
        ⟨[.send ⟨.chunk (i + 1) n, messagePart i n body, false⟩,
          .send ⟨.notification, notifText, o (c + 1)⟩], .normal⟩) ∨
    ((messagePart i n body).length ≤ MAX_LENGTH ∧ o c = false ∧ i ≠ 0 ∧
      sendLoop o d n i c (body :: rest) =
        ⟨[.send ⟨.chunk (i + 1) n, messagePart i n body, false⟩], .normal⟩) := by
  by_cases h1 : MAX_LENGTH < (messagePart i n body).length
  · by_cases h2 : o c = true
    · exact Or.inl ⟨h1, h2, by simp [sendLoop, h1, h2]⟩
    · have h2' : o c = false := by
        cases ho : o c
        · rfl
        · exact absurd ho h2
      exact Or.inr (Or.inl ⟨h1, h2', by simp [sendLoop, h1, h2']⟩)
  · have h1' : (messagePart i n body).length ≤ MAX_LENGTH := Nat.le_of_not_lt h1
    by_cases h2 : o c = true
    · by_cases h3 : i < n - 1
      · exact Or.inr (Or.inr (Or.inl ⟨h1', h2, h3, by simp [sendLoop, h1, h2, h3]⟩))
      · exact Or.inr (Or.inr (Or.inr (Or.inl ⟨h1', h2, h3,
          by simp [sendLoop, h1, h2, h3]⟩)))
    · have h2' : o c = false := by
        cases ho : o c
        · rfl
        · exact absurd ho h2
      by_cases h3 : i = 0
      · subst h3
        exact Or.inr (Or.inr (Or.inr (Or.inr (Or.inl ⟨h1', h2', rfl,
          by simp [sendLoop, h1, h2']⟩))))
      · exact Or.inr (Or.inr (Or.inr (Or.inr (Or.inr ⟨h1', h2', h3,
          by simp [sendLoop, h1, h2', h3]⟩))))

/-! ### Invariants of the sending loop -/

/-- Every send event of the loop started at 0-based position `i` is a chunk
or truncated send for a 1-based index in `(i, i + remaining]`, or — only
when the loop starts at the first chunk — the failure notification. -/
theorem sendLoop_mem_kinds (o : Nat → Bool) (d n : Nat) (chunks : List (List Char)) :
    ∀ i c e, TraceItem.send e ∈ (sendLoop o d n i c chunks).trace →
      (∃ j, kindIdx e.kind = some j ∧ i + 1 ≤ j ∧ j ≤ i + chunks.length) ∨
      (e.kind = .notification ∧ e.payload = notifText ∧ i = 0) := by
  induction chunks with
  | nil =>
    intro i c e he
    simp [sendLoop] at he
  | cons body rest ih =>
    intro i c e he
    rcases sendLoop_cons_cases o d n i c body rest with
      ⟨h1, h2, heq⟩ | ⟨h1, h2, heq⟩ | ⟨h1, h2, h3, heq⟩ | ⟨h1, h2, h3, heq⟩ |
      ⟨h1, h2, h3, heq⟩ | ⟨h1, h2, h3, heq⟩
    · rw [heq] at he
      rcases List.mem_cons.mp he with h0 | h0

      · cases h0
        exact Or.inl ⟨i + 1, rfl, by omega, by simp⟩
      · rcases ih (i + 1) (c + 1) e h0 with ⟨j, hk, hj1, hj2⟩ | ⟨_, _, hi⟩
        · exact Or.inl ⟨j, hk, by omega, by simp only [List.length_cons]; omega⟩
        · omega
    · rw [heq] at he
      rcases List.mem_singleton.mp he with h0
      cases h0
      exact Or.inl ⟨i + 1, rfl, by omega, by simp⟩
    · rw [heq] at he
      rcases List.mem_cons.mp he with h0 | h0
      · cases h0
        exact Or.inl ⟨i + 1, rfl, by omega, by simp⟩
      · rcases List.mem_cons.mp h0 with h0' | h0'
        · cases h0'
        · rcases ih (i + 1) (c + 1) e h0' with ⟨j, hk, hj1, hj2⟩ | ⟨_, _, hi⟩
          · exact Or.inl ⟨j, hk, by omega, by simp only [List.length_cons]; omega⟩
          · omega
    · rw [heq] at he
      rcases List.mem_cons.mp he with h0 | h0
      · cases h0
        exact Or.inl ⟨i + 1, rfl, by omega, by simp⟩
      · rcases ih (i + 1) (c + 1) e h0 with ⟨j, hk, hj1, hj2⟩ | ⟨_, _, hi⟩
        · exact Or.inl ⟨j, hk, by omega, by simp only [List.length_cons]; omega⟩
        · omega
    · rw [heq] at he
      rcases List.mem_cons.mp he with h0 | h0
      · cases h0
        exact Or.inl ⟨i + 1, rfl, by omega, by simp⟩
      · rcases List.mem_singleton.mp h0 with h0'
        cases h0'
        exact Or.inr ⟨rfl, rfl, h3⟩
    · rw [heq] at he
      rcases List.mem_singleton.mp he with h0
      cases h0
      exact Or.inl ⟨i + 1, rfl, by omega, by simp⟩

/-- Every payload handed to the send primitive by the loop fits the limit. -/
theorem sendLoop_payload_le (o : Nat → Bool) (d n : Nat) (chunks : List (List Char)) :
    ∀ i c e, TraceItem.send e ∈ (sendLoop o d n i c chunks).trace →
      e.payload.length ≤ MAX_LENGTH := by
  induction chunks with
  | nil =>
    intro i c e he
    simp [sendLoop] at he
  | cons body rest ih =>
    intro i c e he
    rcases sendLoop_cons_cases o d n i c body rest with
      ⟨h1, h2, heq⟩ | ⟨h1, h2, heq⟩ | ⟨h1, h2, h3, heq⟩ | ⟨h1, h2, h3, heq⟩ |
      ⟨h1, h2, h3, heq⟩ | ⟨h1, h2, h3, heq⟩
    · rw [heq] at he
      rcases List.mem_cons.mp he with h0 | h0
      · cases h0
        exact length_truncPayload_le _
      · exact ih (i + 1) (c + 1) e h0
    · rw [heq] at he
      rcases List.mem_singleton.mp he with h0
      cases h0
      exact length_truncPayload_le _
    · rw [heq] at he
      rcases List.mem_cons.mp he with h0 | h0
      · cases h0
        exact h1
      · rcases List.mem_cons.mp h0 with h0' | h0'
        · cases h0'
        · exact ih (i + 1) (c + 1) e h0'
    · rw [heq] at he
      rcases List.mem_cons.mp he with h0 | h0
      · cases h0
        exact h1
      · exact ih (i + 1) (c + 1) e h0
    · rw [heq] at he
      rcases List.mem_cons.mp he with h0 | h0
      · cases h0
        exact h1
      · rcases List.mem_singleton.mp h0 with h0'
        cases h0'
        rw [show (SendEvent.mk .notification notifText (o (c + 1))).payload = notifText from rfl,
          notifText_length]
        decide
    · rw [heq] at he
      rcases List.mem_singleton.mp he with h0
      cases h0
      exact h1

/-- On a nonempty chunk list the loop's trace starts with a physical send. -/
theorem sendLoop_trace_head (o : Nat → Bool) (d n i c : Nat) (body : List Char)
    (rest : List (List Char)) :
    ∃ e T', (sendLoop o d n i c (body :: rest)).trace = .send e :: T' := by
  rcases sendLoop_cons_cases o d n i c body rest with
    ⟨_, _, heq⟩ | ⟨_, _, heq⟩ | ⟨_, _, _, heq⟩ | ⟨_, _, _, heq⟩ |
    ⟨_, _, _, heq⟩ | ⟨_, _, _, heq⟩ <;>
    rw [heq] <;> exact ⟨_, _, rfl⟩

/-- After a failed chunk send no chunk with a larger index is ever sent:
every chunk-indexed event in the same trace has index at most that of the
failed one. -/
theorem sendLoop_abort (o : Nat → Bool) (d n : Nat) (chunks : List (List Char)) :
    ∀ i c e1 e2 k j,
      TraceItem.send e1 ∈ (sendLoop o d n i c chunks).trace →
      kindIdx e1.kind = some k → e1.ok = false →
      TraceItem.send e2 ∈ (sendLoop o d n i c chunks).trace →
      kindIdx e2.kind = some j → j ≤ k := by
  induction chunks with
  | nil =>
    intro i c e1 e2 k j h1 _ _ _ _
    simp [sendLoop] at h1
  | cons body rest ih =>
    intro i c e1 e2 k j he1 hk1 hok1 he2 hk2
    rcases sendLoop_cons_cases o d n i c body rest with
      ⟨hC, hO, heq⟩ | ⟨hC, hO, heq⟩ | ⟨hC, hO, hX, heq⟩ | ⟨hC, hO, hX, heq⟩ |
      ⟨hC, hO, hX, heq⟩ | ⟨hC, hO, hX, heq⟩
    · rw [heq] at he1 he2
      have hk : i + 2 ≤ k := by
        rcases List.mem_cons.mp he1 with h0 | h0
        · cases h0
          simp at hok1
        · rcases sendLoop_mem_kinds o d n rest (i + 1) (c + 1) e1 h0 with
            ⟨j', hkj, hj1, _⟩ | ⟨hkind, _, _⟩
          · rw [hk1, Option.some_inj] at hkj
            omega
          · rw [hkind] at hk1
            simp [kindIdx] at hk1
      rcases List.mem_cons.mp he2 with h0 | h0
      · cases h0
        simp [kindIdx] at hk2
        omega
      · rcases List.mem_cons.mp he1 with h1' | h1'
        · cases h1'
          simp at hok1
        · exact ih (i + 1) (c + 1) e1 e2 k j h1' hk1 hok1 h0 hk2
    · rw [heq] at he1 he2
      rcases List.mem_singleton.mp he2 with h0
      cases h0
      rcases List.mem_singleton.mp he1 with h1'
      cases h1'
      simp [kindIdx] at hk1 hk2
      omega
    · rw [heq] at he1 he2
      have hk : i + 2 ≤ k := by
        rcases List.mem_cons.mp he1 with h0 | h0
        · cases h0
          simp at hok1
        · rcases List.mem_cons.mp h0 with h0' | h0'
          · cases h0'
          · rcases sendLoop_mem_kinds o d n rest (i + 1) (c + 1) e1 h0' with
              ⟨j', hkj, hj1, _⟩ | ⟨hkind, _, _⟩
            · rw [hk1, Option.some_inj] at hkj
              omega
            · rw [hkind] at hk1
              simp [kindIdx] at hk1
      rcases List.mem_cons.mp he2 with h0 | h0
      · cases h0
        simp [kindIdx] at hk2
        omega
      · rcases List.mem_cons.mp h0 with h0' | h0'
        · cases h0'
        · rcases List.mem_cons.mp he1 with h1' | h1'
          · cases h1'
            simp at hok1
          · rcases List.mem_cons.mp h1' with h1'' | h1''
            · cases h1''
            · exact ih (i + 1) (c + 1) e1 e2 k j h1'' hk1 hok1 h0' hk2
    · rw [heq] at he1 he2
      have hk : i + 2 ≤ k := by
        rcases List.mem_cons.mp he1 with h0 | h0
        · cases h0
          simp at hok1
        · rcases sendLoop_mem_kinds o d n rest (i + 1) (c + 1) e1 h0 with
            ⟨j', hkj, hj1, _⟩ | ⟨hkind, _, _⟩
          · rw [hk1, Option.some_inj] at hkj
            omega
          · rw [hkind] at hk1
            simp [kindIdx] at hk1
      rcases List.mem_cons.mp he2 with h0 | h0
      · cases h0
        simp [kindIdx] at hk2
        omega
      · rcases List.mem_cons.mp he1 with h1' | h1'
        · cases h1'
          simp at hok1
        · exact ih (i + 1) (c + 1) e1 e2 k j h1' hk1 hok1 h0 hk2
    · rw [heq] at he1 he2
      rcases List.mem_cons.mp he2 with h0 | h0
      · cases h0
        rcases List.mem_cons.mp he1 with h1' | h1'
        · cases h1'
          simp [kindIdx] at hk1 hk2
          omega
        · rcases List.mem_singleton.mp h1' with h1''
          cases h1''
          simp [kindIdx] at hk1
      · rcases List.mem_singleton.mp h0 with h0'
        cases h0'
        simp [kindIdx] at hk2
    · rw [heq] at he1 he2
      rcases List.mem_singleton.mp he2 with h0
      cases h0
      rcases List.mem_singleton.mp he1 with h1'
      cases h1'
      simp [kindIdx] at hk1 hk2
      omega

/-- A chunk send that fails inside the `try` block is swallowed: the loop
returns normally. -/
theorem sendLoop_outcome_of_chunk_fail (o : Nat → Bool) (d n : Nat)
    (chunks : List (List Char)) :
    ∀ i c e k m,
      TraceItem.send e ∈ (sendLoop o d n i c chunks).trace →
      e.kind = .chunk k m → e.ok = false →
      (sendLoop o d n i c chunks).outcome = .normal := by
  induction chunks with
  | nil =>
    intro i c e k m he _ _
    simp [sendLoop] at he
  | cons body rest ih =>
    intro i c e k m he hkind hok
    rcases sendLoop_cons_cases o d n i c body rest with
      ⟨hC, hO, heq⟩ | ⟨hC, hO, heq⟩ | ⟨hC, hO, hX, heq⟩ | ⟨hC, hO, hX, heq⟩ |
      ⟨hC, hO, hX, heq⟩ | ⟨hC, hO, hX, heq⟩
    · rw [heq] at he ⊢
      rcases List.mem_cons.mp he with h0 | h0
      · cases h0
        simp at hkind
      · exact ih (i + 1) (c + 1) e k m h0 hkind hok
    · rw [heq] at he
      rcases List.mem_singleton.mp he with h0
      cases h0
      simp at hkind
    · rw [heq] at he ⊢
      rcases List.mem_cons.mp he with h0 | h0
      · cases h0
        simp at hok
      · rcases List.mem_cons.mp h0 with h0' | h0'
        · cases h0'
        · exact ih (i + 1) (c + 1) e k m h0' hkind hok
    · rw [heq] at he ⊢
      rcases List.mem_cons.mp he with h0 | h0
      · cases h0
        simp at hok
      · exact ih (i + 1) (c + 1) e k m h0 hkind hok
    · rw [heq]
    · rw [heq]

/-- Chunk-indexed sends appear in strictly ascending index order. -/
theorem sendLoop_ascending (o : Nat → Bool) (d n : Nat) (chunks : List (List Char)) :
    ∀ i c, ((sendLoop o d n i c chunks).trace.filterMap chunkIdx).Pairwise (· < ·) := by
  induction chunks with
  | nil =>
    intro i c
    simp [sendLoop]
  | cons body rest ih =>
    intro i c
    have hrec : ∀ j,
        j ∈ (sendLoop o d n (i + 1) (c + 1) rest).trace.filterMap chunkIdx →
        i + 1 < j := by
      intro j hj
      rcases List.mem_filterMap.mp hj with ⟨t, ht, hft⟩
      cases t with
      | wait ms => simp [chunkIdx] at hft
      | send e =>
        rcases sendLoop_mem_kinds o d n rest (i + 1) (c + 1) e ht with
          ⟨j', hk, hj1, _⟩ | ⟨hkind, _, _⟩
        · have hj' : kindIdx e.kind = some j := hft
          rw [hk, Option.some_inj] at hj'
          omega
        · have hj' : kindIdx e.kind = some j := hft
          rw [hkind] at hj'
          simp [kindIdx] at hj'
    rcases sendLoop_cons_cases o d n i c body rest with
      ⟨hC, hO, heq⟩ | ⟨hC, hO, heq⟩ | ⟨hC, hO, hX, heq⟩ | ⟨hC, hO, hX, heq⟩ |
      ⟨hC, hO, hX, heq⟩ | ⟨hC, hO, hX, heq⟩
    · rw [heq]
      simp only [List.filterMap_cons, chunkIdx, kindIdx]
      exact List.pairwise_cons.mpr ⟨hrec, ih (i + 1) (c + 1)⟩
    · rw [heq]
      simp [chunkIdx, kindIdx]
    · rw [heq]
      simp only [List.filterMap_cons, chunkIdx, kindIdx]
      exact List.pairwise_cons.mpr ⟨hrec, ih (i + 1) (c + 1)⟩
    · rw [heq]
      simp only [List.filterMap_cons, chunkIdx, kindIdx]
      exact List.pairwise_cons.mpr ⟨hrec, ih (i + 1) (c + 1)⟩
    · rw [heq]
      simp [chunkIdx, kindIdx]
    · rw [heq]
      simp [chunkIdx, kindIdx]

/-- Pacing: a successful prefixed chunk send that is not the last chunk is
immediately followed in the trace by the inter-chunk delay. -/
theorem sendLoop_pacing (o : Nat → Bool) (d n : Nat) (chunks : List (List Char)) :
    ∀ i c k e j m,
      (sendLoop o d n i c chunks).trace.get? k = some (.send e) →
      e.kind = .chunk j m → e.ok = true → j < m →
      (sendLoop o d n i c chunks).trace.get? (k + 1) = some (.wait d) := by
  induction chunks with
  | nil =>
    intro i c k e j m hget _ _ _
    simp [sendLoop] at hget
  | cons body rest ih =>
    intro i c k e j m hget hkind hok hjm
    rcases sendLoop_cons_cases o d n i c body rest with
      ⟨hC, hO, heq⟩ | ⟨hC, hO, heq⟩ | ⟨hC, hO, hX, heq⟩ | ⟨hC, hO, hX, heq⟩ |
      ⟨hC, hO, hX, heq⟩ | ⟨hC, hO, hX, heq⟩
    · rw [heq] at hget ⊢
      cases k with
      | zero =>
        simp only [List.get?_cons_zero, Option.some_inj] at hget
        cases hget
        simp at hkind
      | succ k' =>
        simp only [List.get?_cons_succ] at hget ⊢
        exact ih (i + 1) (c + 1) k' e j m hget hkind hok hjm
    · rw [heq] at hget
      cases k with
      | zero =>
        simp only [List.get?_cons_zero, Option.some_inj] at hget
        cases hget
        simp at hkind
      | succ k' =>
        simp at hget
    · rw [heq] at hget ⊢
      cases k with
      | zero => rfl
      | succ k' =>
        cases k' with
        | zero => simp at hget
        | succ k'' =>
          simp only [List.get?_cons_succ] at hget ⊢
          exact ih (i + 1) (c + 1) k'' e j m hget hkind hok hjm
    · rw [heq] at hget ⊢
      cases k with
      | zero =>
        simp only [List.get?_cons_zero, Option.some_inj] at hget
        cases hget
        rcases hkind with hkind
        have hj : j = i + 1 ∧ m = n := by
          cases hkind
          exact ⟨rfl, rfl⟩
        omega
      | succ k' =>
        simp only [List.get?_cons_succ] at hget ⊢
        exact ih (i + 1) (c + 1) k' e j m hget hkind hok hjm
    · rw [heq] at hget
      cases k with
      | zero =>
        simp only [List.get?_cons_zero, Option.some_inj] at hget
        cases hget
        simp at hok
      | succ k' =>
        cases k' with
        | zero =>
          simp only [List.get?_cons_succ, List.get?_cons_zero, Option.some_inj] at hget
          cases hget
          simp at hkind
        | succ k'' => simp at hget
    · rw [heq] at hget
      cases k with
      | zero =>
        simp only [List.get?_cons_zero, Option.some_inj] at hget
        cases hget
        simp at hok
      | succ k' => simp at hget

/-- Every wait in the trace is the configured inter-chunk delay and is
followed by another physical send: no delay is awaited after the final
send.  (The hypothesis ties `n` to the number of remaining chunks, as in
the actual call.) -/
theorem sendLoop_waits (o : Nat → Bool) (d n : Nat) (chunks : List (List Char)) :
    ∀ i c, i + chunks.length = n →
      ∀ k ms, (sendLoop o d n i c chunks).trace.get? k = some (.wait ms) →
        ms = d ∧ ∃ e, (sendLoop o d n i c chunks).trace.get? (k + 1) = some (.send e) := by
  induction chunks with
  | nil =>
    intro i c _ k ms hget
    simp [sendLoop] at hget
  | cons body rest ih =>
    intro i c hn k ms hget
    have hn' : (i + 1) + rest.length = n := by
      simp only [List.length_cons] at hn
      omega
    rcases sendLoop_cons_cases o d n i c body rest with
      ⟨hC, hO, heq⟩ | ⟨hC, hO, heq⟩ | ⟨hC, hO, hX, heq⟩ | ⟨hC, hO, hX, heq⟩ |
      ⟨hC, hO, hX, heq⟩ | ⟨hC, hO, hX, heq⟩
    · rw [heq] at hget ⊢
      cases k with
      | zero => simp at hget
      | succ k' =>
        simp only [List.get?_cons_succ] at hget ⊢
        exact ih (i + 1) (c + 1) hn' k' ms hget
    · rw [heq] at hget
      cases k with
      | zero => simp at hget
      | succ k' => simp at hget
    · rw [heq] at hget ⊢
      cases k with
      | zero => simp at hget
      | succ k' =>
        cases k' with
        | zero =>
          simp only [List.get?_cons_succ, List.get?_cons_zero, Option.some_inj] at hget
          cases hget
          refine ⟨rfl, ?_⟩
          cases rest with
          | nil =>
            exfalso
            simp only [List.length_nil] at hn'
            omega
          | cons r rs =>
            obtain ⟨e, T', hT⟩ := sendLoop_trace_head o d n (i + 1) (c + 1) r rs
            rw [show ∀ a b : TraceItem, ∀ t : List TraceItem,
              (a :: b :: t).get? 2 = t.get? 0 from fun _ _ _ => rfl]
            rw [hT]
            exact ⟨e, rfl⟩
        | succ k'' =>
          simp only [List.get?_cons_succ] at hget ⊢
          exact ih (i + 1) (c + 1) hn' k'' ms hget
    · rw [heq] at hget ⊢
      cases k with
      | zero => simp at hget
      | succ k' =>
        simp only [List.get?_cons_succ] at hget ⊢
        exact ih (i + 1) (c + 1) hn' k' ms hget
    · rw [heq] at hget
      cases k with
      | zero => simp at hget
      | succ k' =>
        cases k' with
        | zero => simp at hget
        | succ k'' => simp at hget
    · rw [heq] at hget
      cases k with
      | zero => simp at hget
      | succ k' => simp at hget

/-- A notification send can only appear because the first chunk's prefixed
send failed; the same trace then contains that failed chunk-1 send. -/
theorem sendLoop_notif_source (o : Nat → Bool) (d n c : Nat)
    (chunks : List (List Char)) (e : SendEvent)
    (he : TraceItem.send e ∈ (sendLoop o d n 0 c chunks).trace)
    (hk : e.kind = .notification) :
    ∃ e', TraceItem.send e' ∈ (sendLoop o d n 0 c chunks).trace ∧
      e'.kind = .chunk 1 n ∧ e'.ok = false := by
  cases chunks with
  | nil => simp [sendLoop] at he
  | cons body rest =>
    have hrec : ∀ e'', TraceItem.send e'' ∈ (sendLoop o d n 1 (c + 1) rest).trace →
        e''.kind ≠ .notification := by
      intro e'' he'' hkind
      rcases sendLoop_mem_kinds o d n rest 1 (c + 1) e'' he'' with
        ⟨j', hkj, _, _⟩ | ⟨_, _, h0⟩
      · rw [hkind] at hkj
        simp [kindIdx] at hkj
      · omega
    rcases sendLoop_cons_cases o d n 0 c body rest with
      ⟨hC, hO, heq⟩ | ⟨hC, hO, heq⟩ | ⟨hC, hO, hX, heq⟩ | ⟨hC, hO, hX, heq⟩ |
      ⟨hC, hO, hX, heq⟩ | ⟨hC, hO, hX, heq⟩
    · rw [heq] at he
      rcases List.mem_cons.mp he with h0 | h0
      · cases h0
        simp at hk
      · exact absurd hk (hrec e h0)
    · rw [heq] at he
      rcases List.mem_singleton.mp he with h0
      cases h0
      simp at hk
    · rw [heq] at he
      rcases List.mem_cons.mp he with h0 | h0
      · cases h0
        simp at hk
      · rcases List.mem_cons.mp h0 with h0' | h0'
        · cases h0'
        · exact absurd hk (hrec e h0')
    · rw [heq] at he
      rcases List.mem_cons.mp he with h0 | h0
      · cases h0
        simp at hk
      · exact absurd hk (hrec e h0)
    · rw [heq]
      exact ⟨⟨.chunk 1 n, messagePart 0 n body, false⟩, by simp, rfl, rfl⟩
    · exact absurd rfl hX

/-- If the first chunk's prefixed send fails, the loop's whole trace is
exactly that failed send followed by one best-effort notification send,
and the loop returns normally whatever the notification's own outcome. -/
theorem sendLoop_chunk1_fail_shape (o : Nat → Bool) (d n c : Nat)
    (chunks : List (List Char)) (e : SendEvent) (m : Nat)
    (he : TraceItem.send e ∈ (sendLoop o d n 0 c chunks).trace)
    (hk : e.kind = .chunk 1 m) (hok : e.ok = false) :
    ∃ p b, (sendLoop o d n 0 c chunks).trace =
        [.send ⟨.chunk 1 m, p, false⟩, .send ⟨.notification, notifText, b⟩] ∧
      (sendLoop o d n 0 c chunks).outcome = .normal := by
  cases chunks with
  | nil => simp [sendLoop] at he
  | cons body rest =>
    have hrec : ∀ e'', TraceItem.send e'' ∈ (sendLoop o d n 1 (c + 1) rest).trace →
        e''.kind ≠ .chunk 1 m := by
      intro e'' he'' hkind
      rcases sendLoop_mem_kinds o d n rest 1 (c + 1) e'' he'' with
        ⟨j', hkj, hj1, _⟩ | ⟨hkind', _, _⟩
      · rw [hkind] at hkj
        simp only [kindIdx, Option.some_inj] at hkj
        omega
      · rw [hkind] at hkind'
        cases hkind'
    rcases sendLoop_cons_cases o d n 0 c body rest with
      ⟨hC, hO, heq⟩ | ⟨hC, hO, heq⟩ | ⟨hC, hO, hX, heq⟩ | ⟨hC, hO, hX, heq⟩ |
      ⟨hC, hO, hX, heq⟩ | ⟨hC, hO, hX, heq⟩
    · rw [heq] at he
      rcases List.mem_cons.mp he with h0 | h0
      · cases h0
        simp at hk
      · exact absurd hk (hrec e h0)
    · rw [heq] at he
      rcases List.mem_singleton.mp he with h0
      cases h0
      simp at hk
    · rw [heq] at he
      rcases List.mem_cons.mp he with h0 | h0
      · cases h0
        simp at hok
      · rcases List.mem_cons.mp h0 with h0' | h0'
        · cases h0'
        · exact absurd hk (hrec e h0')
    · rw [heq] at he
      rcases List.mem_cons.mp he with h0 | h0
      · cases h0
        simp at hok
      · exact absurd hk (hrec e h0)
    · rw [heq] at he ⊢
      rcases List.mem_cons.mp he with h0 | h0
      · cases h0
        rcases hk with hk
        have hmn : m = n := by
          cases hk
          rfl
        subst hmn
        exact ⟨messagePart 0 m body, o (c + 1), rfl, rfl⟩
      · rcases List.mem_singleton.mp h0 with h0'
        cases h0'
        simp at hk
    · exact absurd rfl hX

/-! ### The input guard -/

theorem forall_dropWhile_iff (p : Char → Bool) (l : List Char) :
    (∀ a ∈ l.dropWhile p, p a) ↔ ∀ a ∈ l, p a := by
  induction l with
  | nil => simp
  | cons x xs ih =>
    by_cases hx : p x
    · simp [List.dropWhile_cons, hx, ih]
    · simp [List.dropWhile_cons, hx]

/-- The trimmed text is empty exactly when every character is whitespace. -/
theorem jsTrim_eq_nil_iff (l : List Char) :
    jsTrim l = [] ↔ ∀ c ∈ l, isJsWhitespace c := by
  unfold jsTrim
  rw [List.reverse_eq_nil_iff, List.dropWhile_eq_nil_iff]
  constructor
  · intro h c hc
    exact (forall_dropWhile_iff isJsWhitespace l).mp
      (fun a ha => h a (List.mem_reverse.mpr ha)) c hc
  · intro h a ha
    exact (forall_dropWhile_iff isJsWhitespace l).mpr h a (List.mem_reverse.mp ha)

/-- A string whose trim is nonempty passes the input guard. -/
theorem guardBlocks_eq_false (text : List Char) (h : jsTrim text ≠ []) :
    guardBlocks (.jsString text) = false := by
  have hne : text ≠ [] := by
    intro h0
    subst h0
    exact h rfl
  simp only [guardBlocks, truthy, isStringType, trimmedEmpty]
  simp [List.isEmpty_iff, hne, h]

/-- A non-string `longText` is stopped by the guard's `typeof` test. -/
theorem guardBlocks_of_not_string (v : JSValue) (h : isStringType v = false) :
    guardBlocks v = true := by
  simp [guardBlocks, h]

/-- A blocked input produces no sends and a normal return. -/
theorem sendSplitMessage_guarded (o : Nat → Bool) (v : JSValue) (d : Nat)
    (h : guardBlocks v = true) :
    sendSplitMessage o v d = ⟨[], .normal⟩ := by
  simp [sendSplitMessage, h]

/-- The short path: one verbatim send whose outcome is the call's outcome. -/
theorem sendSplitMessage_short (o : Nat → Bool) (text : List Char) (d : Nat)
    (ht : jsTrim text ≠ []) (hl : text.length ≤ MAX_LENGTH) :
    sendSplitMessage o (.jsString text) d =
      ⟨[.send ⟨.short, text, o 0⟩], if o 0 then .normal else .thrown⟩ := by
  simp [sendSplitMessage, guardBlocks_eq_false text ht, hl]

/-- The long path: split into chunks and run the sending loop. -/
theorem sendSplitMessage_long (o : Nat → Bool) (text : List Char) (d : Nat)
    (ht : jsTrim text ≠ []) (hl : MAX_LENGTH < text.length) :
    sendSplitMessage o (.jsString text) d =
      sendLoop o d (chunksOf text).length 0 0 (chunksOf text) := by
  simp [sendSplitMessage, guardBlocks_eq_false text ht, Nat.not_le.mpr hl]

/-! ### Concrete two-chunk scenario: 4097 repetitions of 'x' -/

theorem jsTrim_x_replicate (n : Nat) (hn : 0 < n) :
    jsTrim (List.replicate n 'x') ≠ [] := by
  rw [Ne, jsTrim_eq_nil_iff]
  intro hall
  have hx := hall 'x' (List.mem_replicate.mpr ⟨by omega, rfl⟩)
  exact absurd hx (by decide)

theorem replicate_x_ne_nil (n : Nat) (hn : 0 < n) : List.replicate n 'x' ≠ [] := by
  intro h0
  have hlen := congrArg List.length h0
  rw [List.length_replicate] at hlen
  simp only [List.length_nil] at hlen
  omega

theorem chunksOf_x4097 :
    chunksOf (List.replicate 4097 'x') =
      [List.replicate 4076 'x', List.replicate 21 'x'] := by
  have h1 : (List.replicate 4097 'x').take CHUNK_SIZE = List.replicate 4076 'x' := by
    rw [List.take_replicate]
    norm_num
  have h2 : (List.replicate 4097 'x').drop CHUNK_SIZE = List.replicate 21 'x' := by
    rw [List.drop_replicate]
    norm_num
  have h3 : (List.replicate 21 'x').take CHUNK_SIZE = List.replicate 21 'x' := by
    rw [List.take_replicate]
    norm_num
  have h4 : (List.replicate 21 'x').drop CHUNK_SIZE = ([] : List Char) := by
    rw [List.drop_replicate]
    norm_num
  rw [chunksOf_cons_form _ (replicate_x_ne_nil 4097 (by norm_num)), h1, h2,
    chunksOf_cons_form _ (replicate_x_ne_nil 21 (by norm_num)), h3, h4, chunksOf_nil]

theorem length_messagePart_x1 :
    (messagePart 0 2 (List.replicate 4076 'x')).length = 4082 := by
  rw [length_messagePart]
  rw [show (partLabel 1 2).length = 6 from rfl, List.length_replicate]

theorem length_messagePart_x2 :
    (messagePart 1 2 (List.replicate 21 'x')).length = 27 := by
  rw [length_messagePart]
  rw [show (partLabel 2 2).length = 6 from rfl, List.length_replicate]

/-- Trace of the two-chunk scenario when every send succeeds. -/
theorem xTrace_allok :
    sendSplitMessage (fun _ => true) (.jsString (List.replicate 4097 'x')) 1500 =
      ⟨[.send ⟨.chunk 1 2, messagePart 0 2 (List.replicate 4076 'x'), true⟩,
        .wait 1500,
        .send ⟨.chunk 2 2, messagePart 1 2 (List.replicate 21 'x'), true⟩],
        .normal⟩ := by
  rw [sendSplitMessage_long (fun _ => true) _ 1500 (jsTrim_x_replicate 4097 (by norm_num))
    (by rw [List.length_replicate]; norm_num), chunksOf_x4097]
  norm_num [sendLoop, length_messagePart_x1, length_messagePart_x2]

/-- Trace of the two-chunk scenario when every send fails: the first chunk
send fails, one notification is attempted (and fails), and the call still
returns normally. -/
theorem xTrace_allfail :
    sendSplitMessage (fun _ => false) (.jsString (List.replicate 4097 'x')) 1500 =
      ⟨[.send ⟨.chunk 1 2, messagePart 0 2 (List.replicate 4076 'x'), false⟩,
        .send ⟨.notification, notifText, false⟩],
        .normal⟩ := by
  rw [sendSplitMessage_long (fun _ => false) _ 1500 (jsTrim_x_replicate 4097 (by norm_num))
    (by rw [List.length_replicate]; norm_num), chunksOf_x4097]
  norm_num [sendLoop, length_messagePart_x1]

/-! ### The claims -/

/-- The per-chunk size invariant exactly as §3 of the spec words it:
`chunk.body.length + prefixLength(index, total) <= MAX_MESSAGE_LENGTH`,
with `prefixLength` the rendered length of the `"(index/total) "` label.
Modelled from the spec for the refutation of the minimality conjunct of
claim C2. -/
def specChunkSizeInvariant (parts : List (List Char)) : Prop :=
  ∀ i (h : i < parts.length),
    (parts.get ⟨i, h⟩).length + (partLabel (i + 1) parts.length).length ≤ MAX_LENGTH

/-- Claim C2 (amended): for every text longer than `MAX_LENGTH`,
concatenating the chunk bodies in plan order reconstructs the text exactly,
the chunk count is `ceil(length / 4076)` (with `4076 = 4096 - 20`), the
count is minimal among decompositions into bodies of at most `4076`
characters (rather than among decompositions satisfying the prefix-aware
per-chunk invariant, which the code does not minimise against), and the
first chunk body has exactly `4076` characters. -/
theorem c2_chunking_round_trip (text : List Char) (h : MAX_LENGTH < text.length) :
    (chunksOf text).flatten = text ∧
    (chunksOf text).length = (text.length + (CHUNK_SIZE - 1)) / CHUNK_SIZE ∧
    (∀ parts : List (List Char), parts.flatten = text →
      (∀ p ∈ parts, p.length ≤ CHUNK_SIZE) →
      (chunksOf text).length ≤ parts.length) ∧
    (chunksOf text).head?.map List.length = some CHUNK_SIZE := by
  refine ⟨flatten_chunksOf text, length_chunksOf text,
    fun parts hj hs => chunksOf_minimal text parts hj hs, ?_⟩
  have hne : text ≠ [] := by
    intro h0
    subst h0
    exact absurd h (by decide)
  rw [head_chunksOf text hne]
  have hlen : min CHUNK_SIZE text.length = CHUNK_SIZE := by
    have hc : CHUNK_SIZE = 4076 := rfl
    have hm : MAX_LENGTH = 4096 := rfl
    omega
  rw [show (some (text.take CHUNK_SIZE)).map List.length =
      some ((text.take CHUNK_SIZE).length) from rfl, List.length_take, hlen]

/-- Claim C2, counterexample to the minimality conjunct as stated: for 8160
'x' characters the code produces 3 chunks, yet a 2-part decomposition
(4090 + 4070 characters) reconstructs the text and satisfies the spec's
prefix-aware per-chunk size invariant, so the code's count is not minimal
with respect to that invariant. -/
theorem c2_minimality_counterexample :
    ([List.replicate 4090 'x', List.replicate 4070 'x'] : List (List Char)).flatten =
        List.replicate 8160 'x' ∧
    specChunkSizeInvariant [List.replicate 4090 'x', List.replicate 4070 'x'] ∧
    (chunksOf (List.replicate 8160 'x')).length = 3 ∧
    ¬ ((chunksOf (List.replicate 8160 'x')).length ≤
        ([List.replicate 4090 'x', List.replicate 4070 'x'] : List (List Char)).length) := by
  have hcount : (chunksOf (List.replicate 8160 'x')).length = 3 := by
    rw [length_chunksOf, List.length_replicate]
    norm_num
  refine ⟨?_, ?_, hcount, ?_⟩
  · rw [show (8160 : Nat) = 4090 + 4070 from rfl, List.replicate_add]
    simp only [List.flatten_cons, List.flatten_nil, List.append_nil]
  · intro i h
    simp only [List.length_cons, List.length_nil] at h
    interval_cases i
    · show (List.replicate 4090 'x').length + (partLabel 1 2).length ≤ MAX_LENGTH
      rw [List.length_replicate, show (partLabel 1 2).length = 6 from rfl]
    · show (List.replicate 4070 'x').length + (partLabel 2 2).length ≤ MAX_LENGTH
      rw [List.length_replicate, show (partLabel 2 2).length = 6 from rfl]
      norm_num
  · rw [hcount]
    norm_num

/-- Claim C2, concrete scenario: 9000 'x' characters give 3 chunks, the
first body has 4076 characters, its rendered payload `"(1/3) " + body` has
4082 characters, and the bodies concatenate back to the text. -/
theorem c2_witness :
    MAX_LENGTH < (List.replicate 9000 'x').length ∧
    (chunksOf (List.replicate 9000 'x')).flatten = List.replicate 9000 'x' ∧
    (chunksOf (List.replicate 9000 'x')).length = 3 ∧
    (chunksOf (List.replicate 9000 'x')).head?.map List.length = some 4076 ∧
    (messagePart 0 3 ((List.replicate 9000 'x').take CHUNK_SIZE)).length = 4082 := by
  have h : MAX_LENGTH < (List.replicate 9000 'x').length := by
    rw [List.length_replicate]
    norm_num
  obtain ⟨hflat, hlen, hmin, hhead⟩ := c2_chunking_round_trip (List.replicate 9000 'x') h
  refine ⟨h, hflat, ?_, hhead, ?_⟩
  · rw [hlen, List.length_replicate]
    norm_num
  · rw [length_messagePart, show (partLabel 1 3).length = 6 from rfl,
      List.length_take, List.length_replicate]
    norm_num

/-- Claim C4: a non-empty, non-whitespace-only text of at most `MAX_LENGTH`
characters is delivered by exactly one physical send whose payload is the
text verbatim (no part label), and the call's outcome is that send's
outcome. -/
theorem c4_short_path (o : Nat → Bool) (text : List Char) (d : Nat)
    (ht : jsTrim text ≠ []) (hl : text.length ≤ MAX_LENGTH) :
    sendSplitMessage o (.jsString text) d =
      ⟨[.send ⟨.short, text, o 0⟩], if o 0 then .normal else .thrown⟩ :=
  sendSplitMessage_short o text d ht hl

/-- Claim C4, witness: a 4096-character text (exactly at the boundary) is
sent verbatim in one send. -/
theorem c4_witness :
    (jsTrim (List.replicate 4096 'a') ≠ [] ∧
      (List.replicate 4096 'a').length ≤ MAX_LENGTH) ∧
    sendSplitMessage (fun _ => true) (.jsString (List.replicate 4096 'a')) 1500 =
      ⟨[.send ⟨.short, List.replicate 4096 'a', true⟩], .normal⟩ := by
  have ht : jsTrim (List.replicate 4096 'a') ≠ [] := by
    rw [Ne, jsTrim_eq_nil_iff]
    intro hall
    have ha := hall 'a' (List.mem_replicate.mpr ⟨by norm_num, rfl⟩)
    exact absurd ha (by decide)
  have hl : (List.replicate 4096 'a').length ≤ MAX_LENGTH := by
    rw [List.length_replicate]
  refine ⟨⟨ht, hl⟩, ?_⟩
  rw [c4_short_path (fun _ => true) (List.replicate 4096 'a') 1500 ht hl]
  rfl

/-- Claim C9: an empty or whitespace-only text causes zero physical sends
and a normal (successful) return. -/
theorem c9_blank_noop (o : Nat → Bool) (text : List Char) (d : Nat)
    (h : ∀ c ∈ text, isJsWhitespace c) :
    sendSplitMessage o (.jsString text) d = ⟨[], .normal⟩ := by
  apply sendSplitMessage_guarded
  have htrim : jsTrim text = [] := (jsTrim_eq_nil_iff text).mpr h
  simp [guardBlocks, trimmedEmpty, htrim]

/-- Claim C9, witness: two spaces produce no sends and a normal return. -/
theorem c9_witness :
    (∀ c ∈ (' ' :: [' '] : List Char), isJsWhitespace c) ∧
    sendSplitMessage (fun _ => true) (.jsString (' ' :: [' '])) 1500 = ⟨[], .normal⟩ :=
  ⟨by decide, c9_blank_noop (fun _ => true) (' ' :: [' ']) 1500 (by decide)⟩

/-- Claim C10: a non-string `longText` (null, undefined, number, boolean,
object) is stopped by the type test in the input guard before any length
computation: no sends, normal return. -/
theorem c10_non_string_noop (o : Nat → Bool) (v : JSValue) (d : Nat)
    (h : isStringType v = false) :
    sendSplitMessage o v d = ⟨[], .normal⟩ :=
  sendSplitMessage_guarded o v d (guardBlocks_of_not_string v h)

/-- Claim C10, witness: `null` produces no sends and a normal return. -/
theorem c10_witness :
    isStringType JSValue.jsNull = false ∧
    sendSplitMessage (fun _ => true) JSValue.jsNull 1500 = ⟨[], .normal⟩ :=
  ⟨rfl, c10_non_string_noop (fun _ => true) .jsNull 1500 rfl⟩

/-- A non-string input is a guarded no-op. -/
theorem sendSplitMessage_nonstring (o : Nat → Bool) (v : JSValue) (d : Nat)
    (h : isStringType v = false) :
    sendSplitMessage o v d = ⟨[], .normal⟩ :=
  sendSplitMessage_guarded o v d (guardBlocks_of_not_string v h)

/-- Top-level case analysis of one `sendSplitMessage` call: guarded no-op,
short path, or long path. -/
theorem sendSplitMessage_cases (o : Nat → Bool) (v : JSValue) (d : Nat) :
    sendSplitMessage o v d = ⟨[], .normal⟩ ∨
    (∃ text, v = .jsString text ∧ jsTrim text ≠ [] ∧ text.length ≤ MAX_LENGTH ∧
      sendSplitMessage o v d =
        ⟨[.send ⟨.short, text, o 0⟩], if o 0 then .normal else .thrown⟩) ∨
    (∃ text, v = .jsString text ∧ jsTrim text ≠ [] ∧ MAX_LENGTH < text.length ∧
      sendSplitMessage o v d =
        sendLoop o d (chunksOf text).length 0 0 (chunksOf text)) := by
  rcases v with text | _ | _ | n | b | _
  · by_cases hg : guardBlocks (.jsString text) = true
    · exact Or.inl (sendSplitMessage_guarded o _ d hg)
    · have ht : jsTrim text ≠ [] := by
        intro h0
        exact hg (by simp [guardBlocks, trimmedEmpty, h0])
      by_cases hl : text.length ≤ MAX_LENGTH
      · exact Or.inr (Or.inl ⟨text, rfl, ht, hl, sendSplitMessage_short o text d ht hl⟩)
      · exact Or.inr (Or.inr ⟨text, rfl, ht, Nat.not_le.mp hl,
          sendSplitMessage_long o text d ht (Nat.not_le.mp hl)⟩)
  all_goals exact Or.inl (sendSplitMessage_nonstring o _ d rfl)

/-- Claim C3: every payload handed to the physical send primitive by any
`sendSplitMessage` call — short-path send, prefixed chunk send, truncated
anomaly send, or failure notification — has at most `MAX_LENGTH`
characters. -/
theorem c3_payload_bounded (o : Nat → Bool) (v : JSValue) (d : Nat)
    (e : SendEvent)
    (he : TraceItem.send e ∈ (sendSplitMessage o v d).trace) :
    e.payload.length ≤ MAX_LENGTH := by
  rcases sendSplitMessage_cases o v d with heq | ⟨text, hv, ht, hl, heq⟩ |
    ⟨text, hv, ht, hl, heq⟩
  · rw [heq] at he
    simp at he
  · rw [heq] at he
    rcases List.mem_singleton.mp he with h0
    cases h0
    exact hl
  · rw [heq] at he
    exact sendLoop_payload_le o d (chunksOf text).length (chunksOf text) 0 0 e he

/-- Claim C3, witness: the short send of the boundary text carries at most
`MAX_LENGTH` characters. -/
theorem c3_witness :
    TraceItem.send ⟨.short, List.replicate 4096 'a', true⟩ ∈
      (sendSplitMessage (fun _ => true) (.jsString (List.replicate 4096 'a')) 1500).trace ∧
    (SendEvent.mk .short (List.replicate 4096 'a') true).payload.length ≤ MAX_LENGTH := by
  have ht : jsTrim (List.replicate 4096 'a') ≠ [] := by
    rw [Ne, jsTrim_eq_nil_iff]
    intro hall
    have ha := hall 'a' (List.mem_replicate.mpr ⟨by norm_num, rfl⟩)
    exact absurd ha (by decide)
  have hl : (List.replicate 4096 'a').length ≤ MAX_LENGTH := by
    rw [List.length_replicate]
  have hmem : TraceItem.send ⟨.short, List.replicate 4096 'a', true⟩ ∈
      (sendSplitMessage (fun _ => true) (.jsString (List.replicate 4096 'a')) 1500).trace := by
    rw [sendSplitMessage_short (fun _ => true) (List.replicate 4096 'a') 1500 ht hl]
    exact List.mem_singleton_self _
  exact ⟨hmem, c3_payload_bounded (fun _ => true) (.jsString (List.replicate 4096 'a')) 1500
    ⟨.short, List.replicate 4096 'a', true⟩ hmem⟩

/-- Claim C5: if the physical send of chunk `k` fails, no chunk of larger
index is ever sent in that call: every chunk-indexed send of the same call
has index at most `k`. -/
theorem c5_abort_after_failure (o : Nat → Bool) (v : JSValue) (d : Nat)
    (e1 e2 : SendEvent) (k j : Nat)
    (h1 : TraceItem.send e1 ∈ (sendSplitMessage o v d).trace)
    (hk1 : kindIdx e1.kind = some k) (hfail : e1.ok = false)
    (h2 : TraceItem.send e2 ∈ (sendSplitMessage o v d).trace)
    (hk2 : kindIdx e2.kind = some j) :
    j ≤ k := by
  rcases sendSplitMessage_cases o v d with heq | ⟨text, hv, ht, hl, heq⟩ |
    ⟨text, hv, ht, hl, heq⟩
  · rw [heq] at h1
    simp at h1
  · rw [heq] at h1
    rcases List.mem_singleton.mp h1 with h0
    cases h0
    simp [kindIdx] at hk1
  · rw [heq] at h1 h2
    exact sendLoop_abort o d (chunksOf text).length (chunksOf text) 0 0
      e1 e2 k j h1 hk1 hfail h2 hk2

/-- Claim C5, witness: in the failing two-chunk scenario the only
chunk-indexed sends are for chunk 1. -/
theorem c5_witness :
    TraceItem.send ⟨.chunk 1 2, messagePart 0 2 (List.replicate 4076 'x'), false⟩ ∈
      (sendSplitMessage (fun _ => false) (.jsString (List.replicate 4097 'x')) 1500).trace ∧
    (1 : Nat) ≤ 1 := by
  have hmem : TraceItem.send ⟨.chunk 1 2, messagePart 0 2 (List.replicate 4076 'x'), false⟩ ∈
      (sendSplitMessage (fun _ => false) (.jsString (List.replicate 4097 'x')) 1500).trace := by
    rw [xTrace_allfail]
    exact List.mem_cons_self _ _
  exact ⟨hmem, c5_abort_after_failure (fun _ => false)
    (.jsString (List.replicate 4097 'x')) 1500 _ _ 1 1 hmem rfl rfl hmem rfl⟩

/-- Claim C1 (amended): when the prefixed send of some chunk `k` of a
multi-chunk plan fails, no retry of that chunk is performed (its index
occurs exactly once in the trace) and the remaining plan is aborted, but
the failure is NOT reported as the outcome of the whole call: the `catch`
block swallows it and `sendSplitMessage` returns normally. -/
theorem c1_failure_swallowed_no_retry (o : Nat → Bool) (v : JSValue) (d : Nat)
    (k m : Nat)
    (h : ∃ e, TraceItem.send e ∈ (sendSplitMessage o v d).trace ∧
      e.kind = .chunk k m ∧ e.ok = false) :
    (sendSplitMessage o v d).outcome = .normal ∧
    ((sendSplitMessage o v d).trace.filterMap chunkIdx).count k = 1 := by
  obtain ⟨e, he, hkind, hok⟩ := h
  rcases sendSplitMessage_cases o v d with heq | ⟨text, hv, ht, hl, heq⟩ |
    ⟨text, hv, ht, hl, heq⟩
  · rw [heq] at he
    simp at he
  · rw [heq] at he
    rcases List.mem_singleton.mp he with h0
    cases h0
    simp at hkind
  · rw [heq] at he ⊢
    constructor
    · exact sendLoop_outcome_of_chunk_fail o d (chunksOf text).length (chunksOf text)
        0 0 e k m he hkind hok
    · have hasc := sendLoop_ascending o d (chunksOf text).length (chunksOf text) 0 0
      have hnodup : ((sendLoop o d (chunksOf text).length 0 0
          (chunksOf text)).trace.filterMap chunkIdx).Nodup :=
        hasc.imp (fun hlt => Nat.ne_of_lt hlt)
      have hmemk : k ∈ (sendLoop o d (chunksOf text).length 0 0
          (chunksOf text)).trace.filterMap chunkIdx := by
        refine List.mem_filterMap.mpr ⟨.send e, he, ?_⟩
        show kindIdx e.kind = some k
        rw [hkind]
        rfl
      exact List.count_eq_one_of_mem hnodup hmemk

/-- Claim C1, counterexample to the claim as stated: in the failing
two-chunk scenario chunk 1's physical send fails, yet `sendSplitMessage`
completes normally — the send failure is not reported as the outcome of
the call. -/
theorem c1_counterexample :
    (∃ e, TraceItem.send e ∈
        (sendSplitMessage (fun _ => false)
          (.jsString (List.replicate 4097 'x')) 1500).trace ∧
      e.kind = .chunk 1 2 ∧ e.ok = false) ∧
    (sendSplitMessage (fun _ => false)
      (.jsString (List.replicate 4097 'x')) 1500).outcome = .normal := by
  rw [xTrace_allfail]
  exact ⟨⟨⟨.chunk 1 2, messagePart 0 2 (List.replicate 4076 'x'), false⟩,
    List.mem_cons_self _ _, rfl, rfl⟩, rfl⟩

/-- Claim C1, witness for the amended claim. -/
theorem c1_witness :
    (sendSplitMessage (fun _ => false)
      (.jsString (List.replicate 4097 'x')) 1500).outcome = .normal ∧
    ((sendSplitMessage (fun _ => false)
      (.jsString (List.replicate 4097 'x')) 1500).trace.filterMap chunkIdx).count 1 = 1 :=
  c1_failure_swallowed_no_retry (fun _ => false) (.jsString (List.replicate 4097 'x'))
    1500 1 2
    ⟨⟨.chunk 1 2, messagePart 0 2 (List.replicate 4076 'x'), false⟩,
      by rw [xTrace_allfail]; exact List.mem_cons_self _ _, rfl, rfl⟩

/-- Claim C6: a best-effort notification is attempted exactly when the
prefixed send of chunk 1 fails.  Forward direction: if chunk 1's send
fails, the whole trace is that failed send followed by exactly one
notification send, and the call returns normally whatever the
notification's own outcome (its failure is swallowed).  Converse: any
notification send in the trace is accompanied by a failed chunk-1 send,
so no notification is attempted when only a later chunk fails. -/
theorem c6_notification_iff_chunk1_fail (o : Nat → Bool) (v : JSValue) (d : Nat) :
    (∀ e m, TraceItem.send e ∈ (sendSplitMessage o v d).trace →
      e.kind = .chunk 1 m → e.ok = false →
      ∃ p b, (sendSplitMessage o v d).trace =
          [.send ⟨.chunk 1 m, p, false⟩, .send ⟨.notification, notifText, b⟩] ∧
        (sendSplitMessage o v d).outcome = .normal) ∧
    (∀ e, TraceItem.send e ∈ (sendSplitMessage o v d).trace →
      e.kind = .notification →
      ∃ e' m, TraceItem.send e' ∈ (sendSplitMessage o v d).trace ∧
        e'.kind = .chunk 1 m ∧ e'.ok = false) := by
  rcases sendSplitMessage_cases o v d with heq | ⟨text, hv, ht, hl, heq⟩ |
    ⟨text, hv, ht, hl, heq⟩
  · constructor
    · intro e m he hkind hok
      rw [heq] at he
      simp at he
    · intro e he hkind
      rw [heq] at he
      simp at he
  · constructor
    · intro e m he hkind hok
      rw [heq] at he
      rcases List.mem_singleton.mp he with h0
      cases h0
      simp at hkind
    · intro e he hkind
      rw [heq] at he
      rcases List.mem_singleton.mp he with h0
      cases h0
      simp at hkind
  · constructor
    · intro e m he hkind hok
      rw [heq] at he ⊢
      exact sendLoop_chunk1_fail_shape o d (chunksOf text).length 0
        (chunksOf text) e m he hkind hok
    · intro e he hkind
      rw [heq] at he ⊢
      obtain ⟨e', he', hk', hok'⟩ := sendLoop_notif_source o d
        (chunksOf text).length 0 (chunksOf text) e he hkind
      exact ⟨e', (chunksOf text).length, he', hk', hok'⟩

/-- Claim C6, witness: in the failing two-chunk scenario the trace is the
failed chunk-1 send followed by exactly one (failed, swallowed)
notification, and the call returns normally. -/
theorem c6_witness :
    ∃ p b, (sendSplitMessage (fun _ => false)
        (.jsString (List.replicate 4097 'x')) 1500).trace =
        [.send ⟨.chunk 1 2, p, false⟩, .send ⟨.notification, notifText, b⟩] ∧
      (sendSplitMessage (fun _ => false)
        (.jsString (List.replicate 4097 'x')) 1500).outcome = .normal :=
  (c6_notification_iff_chunk1_fail (fun _ => false)
      (.jsString (List.replicate 4097 'x')) 1500).1
    ⟨.chunk 1 2, messagePart 0 2 (List.replicate 4076 'x'), false⟩ 2
    (by rw [xTrace_allfail]; exact List.mem_cons_self _ _) rfl rfl

/-- Claim C7: when a chunk's rendered payload (label plus body) exceeds
`MAX_LENGTH`, the loop sends instead the payload truncated to
`MAX_LENGTH - 3` characters with the three-dot marker appended (total
exactly `MAX_LENGTH`), and when that send succeeds the loop continues with
the remaining chunks instead of aborting the plan. -/
theorem c7_oversized_truncated (o : Nat → Bool) (d n i c : Nat)
    (body : List Char) (rest : List (List Char))
    (hbig : MAX_LENGTH < (messagePart i n body).length) :
    (∃ T, (sendLoop o d n i c (body :: rest)).trace =
        .send ⟨.truncated (i + 1) n,
          (messagePart i n body).take (MAX_LENGTH - 3) ++ ellipsisChars, o c⟩ :: T) ∧
    ((messagePart i n body).take (MAX_LENGTH - 3) ++ ellipsisChars).length =
      MAX_LENGTH ∧
    (o c = true →
      (sendLoop o d n i c (body :: rest)).trace =
          .send ⟨.truncated (i + 1) n,
            (messagePart i n body).take (MAX_LENGTH - 3) ++ ellipsisChars, true⟩ ::
            (sendLoop o d n (i + 1) (c + 1) rest).trace ∧
      (sendLoop o d n i c (body :: rest)).outcome =
        (sendLoop o d n (i + 1) (c + 1) rest).outcome) := by
  have hfull : truncPayload (messagePart i n body) =
      (messagePart i n body).take (MAX_LENGTH - 3) ++ ellipsisChars := rfl
  have hlen := length_truncPayload_of_oversized (messagePart i n body) hbig
  rw [hfull] at hlen
  rcases sendLoop_cons_cases o d n i c body rest with
    ⟨hC, hO, heq⟩ | ⟨hC, hO, heq⟩ | ⟨hC, hO, hX, heq⟩ | ⟨hC, hO, hX, heq⟩ |
    ⟨hC, hO, hX, heq⟩ | ⟨hC, hO, hX, heq⟩
  · refine ⟨⟨(sendLoop o d n (i + 1) (c + 1) rest).trace, ?_⟩, hlen, fun _ => ⟨?_, ?_⟩⟩
    · rw [heq, hO, hfull]
    · rw [heq, hfull]
    · rw [heq]
  · refine ⟨⟨[], ?_⟩, hlen, fun hO' => absurd hO' (by rw [hO]; intro h0; cases h0)⟩
    rw [heq, hO, hfull]
  · exact absurd hbig (Nat.not_lt.mpr hC)
  · exact absurd hbig (Nat.not_lt.mpr hC)
  · exact absurd hbig (Nat.not_lt.mpr hC)
  · exact absurd hbig (Nat.not_lt.mpr hC)

/-- Claim C7, witness: a synthetic plan whose first chunk renders to 4098
characters is sent truncated to exactly 4096 characters and the loop
continues with the second chunk. -/
theorem c7_witness :
    MAX_LENGTH < (messagePart 0 2 (List.replicate 4092 'x')).length ∧
    ((messagePart 0 2 (List.replicate 4092 'x')).take (MAX_LENGTH - 3) ++
      ellipsisChars).length = MAX_LENGTH ∧
    (sendLoop (fun _ => true) 0 2 0 0
        [List.replicate 4092 'x', List.replicate 5 'y']).trace =
      .send ⟨.truncated 1 2,
          (messagePart 0 2 (List.replicate 4092 'x')).take (MAX_LENGTH - 3) ++
            ellipsisChars, true⟩ ::
        (sendLoop (fun _ => true) 0 2 1 1 [List.replicate 5 'y']).trace := by
  have hbig : MAX_LENGTH < (messagePart 0 2 (List.replicate 4092 'x')).length := by
    rw [length_messagePart, show (partLabel 1 2).length = 6 from rfl,
      List.length_replicate]
    norm_num
  obtain ⟨_, hlen, hcont⟩ := c7_oversized_truncated (fun _ => true) 0 2 0 0
    (List.replicate 4092 'x') [List.replicate 5 'y'] hbig
  exact ⟨hbig, hlen, (hcont rfl).1⟩

/-- Claim C8: within one call, chunk sends occur in strictly ascending
1-based index order; after each successful prefixed chunk send that is not
the last chunk the loop awaits exactly the configured inter-chunk delay
(whose source default is 1500) before the next send; every awaited delay
equals that configuration and is followed by a further send, so no delay
is awaited after the final chunk. -/
theorem c8_ordering_pacing (o : Nat → Bool) (v : JSValue) (d : Nat) :
    defaultDelay = 1500 ∧
    ((sendSplitMessage o v d).trace.filterMap chunkIdx).Pairwise (· < ·) ∧
    (∀ k e j m, (sendSplitMessage o v d).trace.get? k = some (.send e) →
      e.kind = .chunk j m → e.ok = true → j < m →
      (sendSplitMessage o v d).trace.get? (k + 1) = some (.wait d)) ∧
    (∀ k ms, (sendSplitMessage o v d).trace.get? k = some (.wait ms) →
      ms = d ∧ ∃ e, (sendSplitMessage o v d).trace.get? (k + 1) = some (.send e)) := by
  rcases sendSplitMessage_cases o v d with heq | ⟨text, hv, ht, hl, heq⟩ |
    ⟨text, hv, ht, hl, heq⟩
  · rw [heq]
    refine ⟨rfl, by simp, ?_, ?_⟩
    · intro k e j m hget
      simp at hget
    · intro k ms hget
      simp at hget
  · rw [heq]
    refine ⟨rfl, by simp [chunkIdx, kindIdx], ?_, ?_⟩
    · intro k e j m hget hkind hok hjm
      cases k with
      | zero =>
        simp only [List.get?_cons_zero, Option.some_inj] at hget
        cases hget
        simp at hkind
      | succ k' => simp at hget
    · intro k ms hget
      cases k with
      | zero => simp at hget
      | succ k' => simp at hget
  · rw [heq]
    refine ⟨rfl,
      sendLoop_ascending o d (chunksOf text).length (chunksOf text) 0 0,
      fun k e j m hget hkind hok hjm =>
        sendLoop_pacing o d (chunksOf text).length (chunksOf text) 0 0
          k e j m hget hkind hok hjm,
      fun k ms hget =>
        sendLoop_waits o d (chunksOf text).length (chunksOf text) 0 0
          (by omega) k ms hget⟩

/-- Claim C8, witness: in the successful two-chunk scenario the delay of
1500 is awaited immediately after the successful send of chunk 1. -/
theorem c8_witness :
    (sendSplitMessage (fun _ => true)
      (.jsString (List.replicate 4097 'x')) 1500).trace.get? 1 =
      some (.wait 1500) := by
  have h := (c8_ordering_pacing (fun _ => true)
      (.jsString (List.replicate 4097 'x')) 1500).2.2.1 0
    ⟨.chunk 1 2, messagePart 0 2 (List.replicate 4076 'x'), true⟩ 1 2
    (by rw [xTrace_allok]; rfl) rfl rfl (by norm_num)
  exact h

end GeminiBot
